import Mathlib

/-!
# Index functions of the three informer programs

The repository holds three programs (`multi-indexing`, `simple-indexing-examples`,
`multi-ns-indexing`).  Each one registers a `cache.Indexers` map of index functions
on a Pod informer and then queries the informer's indexer with `ByIndex`.

This development embeds the index functions (the closures stored in the
`cache.Indexers` literals), the index names registered and queried by each
`main`, and a model of the indexed cache they are registered on.
-/

namespace K8Indexing

/-! ## Data model: the part of `corev1.Pod` read by the programs -/

/-- A Go `error` value; `none` in `Option GoError` is the `nil` error. -/
abbrev GoError := String

/-- A Go `map[string]string`: `none` is the nil map, `some m` a map with unique keys. -/
abbrev GoMap := Option (AList (fun _ : String => String))

/-- The comma-ok map read `v, exists := m[k]`: a nil map or a missing key reads as the
zero value `""` with `exists = false`. -/
def GoMap.index (m : GoMap) (k : String) : String × Bool :=
  match m with
  | none => ("", false)
  | some a =>
    match a.lookup k with
    | some v => (v, true)
    | none => ("", false)

/-- The `corev1.PodSpec` field read by the index functions. -/
structure PodSpec where
  NodeName : String
deriving DecidableEq, Repr

/-- The fields of `corev1.Pod` (with its embedded `ObjectMeta`) used by the programs. -/
structure Pod where
  Name : String
  Namespace : String
  Labels : GoMap
  Annotations : GoMap
  Spec : PodSpec
deriving DecidableEq

/-- The result pair `([]string, error)` of a `cache.IndexFunc`. -/
structure IndexResult where
  keys : List String
  err : Option GoError
deriving DecidableEq, Repr

/-- The type `cache.IndexFunc`, restricted to Pods (every closure starts with
`pod := obj.(*corev1.Pod)`). -/
abbrev IndexFunc := Pod → IndexResult

/-- The type `cache.Indexers`: index name to index function. -/
abbrev Indexers := List (String × IndexFunc)

/-! ## multi-indexing/main.go -/

namespace MultiIndexing

/-- The `"nodeName"` closure of `multi-indexing/main.go`. -/
def nodeName : IndexFunc := fun pod =>
  if pod.Spec.NodeName = "" then
    { keys := [], err := none }
  else
    { keys := [pod.Spec.NodeName], err := none }

/-- The `"appLabel"` closure of `multi-indexing/main.go`. -/
def appLabel : IndexFunc := fun pod =>
  let (labelValue, «exists») := pod.Labels.index "msn_key"
  if !«exists» then
    { keys := [], err := none }
  else
    { keys := [labelValue], err := none }

/-- The `"ownerAnnotation"` closure of `multi-indexing/main.go`. -/
def ownerAnnotation : IndexFunc := fun pod =>
  let (annotationValue, «exists») := pod.Annotations.index "owner"
  if !«exists» then
    { keys := [], err := none }
  else
    { keys := [annotationValue], err := none }

/-- The `cache.Indexers` literal passed to `AddIndexers` in `multi-indexing/main.go`. -/
def indexers : Indexers :=
  [("nodeName", nodeName), ("appLabel", appLabel), ("ownerAnnotation", ownerAnnotation)]

end MultiIndexing

/-! ## simple-indexing-examples/main.go -/

namespace SimpleIndexingExamples

/-- The `"nodeName"` closure of `simple-indexing-examples/main.go`. -/
def nodeName : IndexFunc := fun pod =>
  { keys := [pod.Spec.NodeName], err := none }

/-- The `cache.Indexers` literal passed to `AddIndexers` in `simple-indexing-examples/main.go`. -/
def indexers : Indexers := [("nodeName", nodeName)]

end SimpleIndexingExamples

/-! ## multi-ns-indexing/main.go -/

namespace MultiNsIndexing

/-- The `"nodeName"` closure of `multi-ns-indexing/main.go`. -/
def nodeName : IndexFunc := fun pod =>
  { keys := [pod.Spec.NodeName], err := none }

/-- The `cache.Indexers` literal passed to `AddIndexers` in `multi-ns-indexing/main.go`. -/
def indexers : Indexers := [("nodeName", nodeName)]

/-- The namespaces `main` loops over. -/
def namespaces : List String := ["msn", "kube-system", "kube-public", "default"]

end MultiNsIndexing

/-- A pod with the given node name and no labels or annotations. -/
def podOnNode (node : String) : Pod :=
  { Name := "pod-a", Namespace := "msn", Labels := none, Annotations := none,
    Spec := { NodeName := node } }

/-- A pod carrying exactly one label and no node. -/
def podWithLabel (k v : String) : Pod :=
  { Name := "pod-b", Namespace := "msn", Labels := some (AList.singleton k v),
    Annotations := none, Spec := { NodeName := "" } }

/-- A pod carrying exactly one annotation and no node. -/
def podAnnotated (k v : String) : Pod :=
  { Name := "pod-c", Namespace := "msn", Labels := none,
    Annotations := some (AList.singleton k v), Spec := { NodeName := "" } }

/-! ## The indexed cache the index functions are registered on

`AddIndexers`, `GetIndexer` and `ByIndex` are calls into `k8s.io/client-go/tools/cache`,
whose code is not among the repository's sources.  The cache below follows the
specification's description of the Object Store, the Index Table and the Sync Controller.
-/

/-- Modelled from the spec: the Identity of an object (namespace + name); the cache
implementation behind `podInformer` is missing from the sources. -/
structure Identity where
  Namespace : String
  Name : String
deriving DecidableEq

/-- Modelled from the spec: an Index Definition, a name plus a key-derivation function
from an object to a set of strings (the cache's registration entry, missing from the sources). -/
structure IndexDefinition where
  name : String
  f : Pod → List String

/-- Modelled from the spec: registering a `cache.Indexers` map (the missing `AddIndexers`)
yields one Index Definition per entry, deriving the keys the index function returns. -/
def indexDefinitions (ixs : Indexers) : List IndexDefinition :=
  ixs.map (fun e => { name := e.1, f := fun pod => (e.2 pod).keys })

/-- Modelled from the spec: the Object Store, the base map of identity to the latest known
object (missing from the sources). -/
structure ObjectStore where
  items : AList (fun _ : Identity => Pod)

/-- Modelled from the spec: `Put(identity, object)` of the missing Object Store inserts or
replaces and returns the previous object (or none). -/
def ObjectStore.Put (s : ObjectStore) (id : Identity) (obj : Pod) : Option Pod × ObjectStore :=
  (s.items.lookup id, { items := s.items.insert id obj })

/-- Modelled from the spec: `Delete(identity)` of the missing Object Store removes and returns
the removed object (or none if already absent). -/
def ObjectStore.Delete (s : ObjectStore) (id : Identity) : Option Pod × ObjectStore :=
  (s.items.lookup id, { items := s.items.erase id })

/-- Modelled from the spec: `Get(identity)` of the missing Object Store returns the current
object or not-found. -/
def ObjectStore.Get (s : ObjectStore) (id : Identity) : Option Pod :=
  s.items.lookup id

/-- Modelled from the spec: an Index Table entry of the missing cache, for one Index
Definition a mapping from derived key to the set of identities stored under it. -/
abbrev KeyTable := AList (fun _ : String => List Identity)

/-- Modelled from the spec: the Index Table of the missing cache, per index name the
reverse mapping from derived key to set of identities. -/
abbrev IndexTable := AList (fun _ : String => KeyTable)

/-- The set of identities stored under `key` in one Index Table entry (empty if none). -/
def KeyTable.members (kt : KeyTable) (key : String) : List Identity :=
  (kt.lookup key).getD []

/-- Add `id` to the set stored under `key`. -/
def KeyTable.addIdentity (kt : KeyTable) (key : String) (id : Identity) : KeyTable :=
  kt.insert key ((kt.members key).insert id)

/-- Remove `id` from the set stored under `key`. -/
def KeyTable.removeIdentity (kt : KeyTable) (key : String) (id : Identity) : KeyTable :=
  kt.insert key ((kt.members key).filter (fun i => i ≠ id))

/-- The keys an Index Definition derives from an object that may be absent
(empty set if the object is absent). -/
def IndexDefinition.keysOf (d : IndexDefinition) (obj : Option Pod) : List String :=
  match obj with
  | none => []
  | some o => d.f o

/-- Modelled from the spec: the per-definition step of `Reindex` of the missing Index Table:
remove the identity from every key in `oldKeys - newKeys`, add it to every key in
`newKeys - oldKeys`, leave the keys in both untouched. -/
def KeyTable.reindex (kt : KeyTable) (d : IndexDefinition) (id : Identity)
    (oldObject newObject : Option Pod) : KeyTable :=
  let oldKeys := d.keysOf oldObject
  let newKeys := d.keysOf newObject
  let removed := (oldKeys.filter (fun k => k ∉ newKeys)).foldl
    (fun t k => t.removeIdentity k id) kt
  (newKeys.filter (fun k => k ∉ oldKeys)).foldl (fun t k => t.addIdentity k id) removed

/-- Modelled from the spec: `Reindex(identity, oldObject, newObject)` of the missing Index
Table, applying the per-definition step for every registered Index Definition. -/
def Reindex (defs : List IndexDefinition) (t : IndexTable) (id : Identity)
    (oldObject newObject : Option Pod) : IndexTable :=
  defs.foldl
    (fun t d => t.insert d.name (((t.lookup d.name).getD ∅).reindex d id oldObject newObject)) t

/-- Modelled from the spec: `Lookup(indexName, key)` of the missing Index Table, the set of
identities currently stored under the key; empty if the name is unknown or the key has no
members. -/
def Lookup (t : IndexTable) (indexName key : String) : List Identity :=
  match t.lookup indexName with
  | none => []
  | some kt => kt.members key

/-- Modelled from the spec: the error taxonomy of the missing Query Facade (the part
queries can return). -/
inductive CacheError where
  | UnknownIndex (indexName : String)
deriving DecidableEq, Repr

/-- Modelled from the spec: the cache (missing from the sources), the registered Index
Definitions together with the Object Store and the Index Table they maintain. -/
structure Cache where
  defs : List IndexDefinition
  store : ObjectStore
  table : IndexTable

/-- Modelled from the spec: a cache with the given Index Definitions registered and nothing
ingested yet (the missing informer after `AddIndexers`, before `Start`). -/
def Cache.new (defs : List IndexDefinition) : Cache :=
  { defs := defs, store := { items := ∅ },
    table := defs.foldl (fun t d => t.insert d.name ∅) ∅ }

/-- Modelled from the spec: the lifecycle events delivered by the external source to the
missing Sync Controller. -/
inductive Event where
  | add (identity : Identity) (newObject : Pod)
  | update (identity : Identity) (oldObject newObject : Pod)
  | delete (identity : Identity) (oldObject : Pod)

/-- Modelled from the spec: event application by the missing Sync Controller.  `add` and
`update` do a `Put` followed by `Reindex`, `delete` a `Delete` followed by `Reindex` with no
new object; the old object handed to `Reindex` is the one the Object Store returned, so an
`update` or `delete` for an unknown identity is an insert or a no-op. -/
def Cache.applyEvent (c : Cache) (e : Event) : Cache :=
  match e with
  | .add id newObject | .update id _ newObject =>
    let (prev, store) := c.store.Put id newObject
    { c with store := store, table := Reindex c.defs c.table id prev (some newObject) }
  | .delete id _ =>
    let (prev, store) := c.store.Delete id
    { c with store := store, table := Reindex c.defs c.table id prev none }

/-- The cache after a finite sequence of events, applied in delivery order. -/
def Cache.applyEvents (c : Cache) (es : List Event) : Cache :=
  es.foldl Cache.applyEvent c

/-- Modelled from the spec: `Get(identity)` of the missing Query Facade. -/
def Cache.Get (c : Cache) (id : Identity) : Option Pod :=
  c.store.Get id

/-- Modelled from the spec: `ListByIndex(indexName, key)` of the missing Query Facade (the
`ByIndex` the programs call): `UnknownIndex` for a name never registered, otherwise the
objects obtained by resolving each identity of `Lookup` through `Get`, skipping the absent. -/
def Cache.ByIndex (c : Cache) (indexName key : String) : Except CacheError (List Pod) :=
  if indexName ∈ c.defs.map (fun d => d.name) then
    .ok ((Lookup c.table indexName key).filterMap c.store.Get)
  else
    .error (.UnknownIndex indexName)

/-- Index consistency of a cache: an identity is stored under a key of a registered index
exactly when it is in the Object Store and its current object derives that key. -/
def Cache.Consistent (c : Cache) : Prop :=
  ∀ d ∈ c.defs, ∀ (key : String) (i : Identity),
    i ∈ Lookup c.table d.name key ↔ ∃ obj, c.store.Get i = some obj ∧ key ∈ d.f obj

/-- The cache of `multi-indexing` after `AddIndexers`. -/
def MultiIndexing.cache : Cache := Cache.new (indexDefinitions MultiIndexing.indexers)

/-- The identity of a pod: its namespace and name. -/
def Pod.identity (p : Pod) : Identity := { Namespace := p.Namespace, Name := p.Name }

/-! ## The query section of each `main` -/

/-- The `ByIndex` method of an indexer as `main` sees it: the objects found, or an error. -/
abbrev ByIndexFn (ε : Type) := String → String → Except ε (List Pod)

/-- The `ByIndex` call sites of `multi-indexing/main.go`, in program order, as
(index name, indexed value). -/
def MultiIndexing.byIndexCalls : List (String × String) :=
  [("nodeName", "lima-rancher-desktop"), ("appLabel", "msn_value"), ("ownerAnnotation", "msn")]

/-- The query section of `multi-indexing/main.go`: each `ByIndex` call in turn, with
`if err != nil { panic(err) }` ending the run at the first error; the result collects the pod
names printed for each query. -/
def MultiIndexing.queries {ε : Type} (byIndex : ByIndexFn ε) : Except ε (List (List String)) :=
  MultiIndexing.byIndexCalls.mapM fun c => do
    let pods ← byIndex c.1 c.2
    pure (pods.map fun pod => pod.Name)

/-- The `ByIndex` call site of `simple-indexing-examples/main.go`. -/
def SimpleIndexingExamples.byIndexCalls : List (String × String) :=
  [("nodeName", "lima-rancher-desktop")]

/-- The query section of `simple-indexing-examples/main.go`. -/
def SimpleIndexingExamples.queries {ε : Type} (byIndex : ByIndexFn ε) :
    Except ε (List (List String)) :=
  SimpleIndexingExamples.byIndexCalls.mapM fun c => do
    let pods ← byIndex c.1 c.2
    pure (pods.map fun pod => pod.Name)

/-- The `ByIndex` call site in the loop body of `multi-ns-indexing/main.go`. -/
def MultiNsIndexing.byIndexCalls : List (String × String) :=
  [("nodeName", "lima-rancher-desktop")]

/-- The loop of `multi-ns-indexing/main.go`: one informer, hence one indexer, per namespace;
the loop body queries that namespace's indexer and panics on an error. -/
def MultiNsIndexing.queries {ε : Type} (byIndex : String → ByIndexFn ε) :
    Except ε (List (List (List String))) :=
  MultiNsIndexing.namespaces.mapM fun ns =>
    MultiNsIndexing.byIndexCalls.mapM fun c => do
      let pods ← byIndex ns c.1 c.2
      pure (pods.map fun pod => pod.Name)

/-- The names registered by a `cache.Indexers` map. -/
def Indexers.names (ixs : Indexers) : List String := ixs.map Prod.fst

/-- The entry a Go map holds under `k`, if any (none for the nil map). -/
def GoMap.entry (m : GoMap) (k : String) : Option String :=
  match m with
  | none => none
  | some a => a.lookup k

/-! ## Basic facts about map reads -/

theorem GoMap.index_of_entry_none {m : GoMap} {k : String} (h : m.entry k = none) :
    m.index k = ("", false) := by
  cases m with
  | none => rfl
  | some a =>
    simp only [GoMap.entry] at h
    simp [GoMap.index, h]

theorem GoMap.index_of_entry_some {m : GoMap} {k v : String} (h : m.entry k = some v) :
    m.index k = (v, true) := by
  cases m with
  | none => simp [GoMap.entry] at h
  | some a =>
    simp only [GoMap.entry] at h
    simp [GoMap.index, h]

theorem MultiIndexing.appLabel_keys (p : Pod) :
    (MultiIndexing.appLabel p).keys = (p.Labels.entry "msn_key").toList := by
  cases h : p.Labels.entry "msn_key" with
  | none => simp [MultiIndexing.appLabel, GoMap.index_of_entry_none h]
  | some v => simp [MultiIndexing.appLabel, GoMap.index_of_entry_some h]

theorem MultiIndexing.ownerAnnotation_keys (p : Pod) :
    (MultiIndexing.ownerAnnotation p).keys = (p.Annotations.entry "owner").toList := by
  cases h : p.Annotations.entry "owner" with
  | none => simp [MultiIndexing.ownerAnnotation, GoMap.index_of_entry_none h]
  | some v => simp [MultiIndexing.ownerAnnotation, GoMap.index_of_entry_some h]

/-! ## The index functions -/

/-- C1: the `nodeName` index function of multi-indexing returns the empty key list with a nil
error for a pod whose `Spec.NodeName` is empty, and exactly `[Spec.NodeName]` with a nil error
otherwise. -/
theorem multiIndexing_nodeName_spec (p : Pod) :
    (p.Spec.NodeName = "" → MultiIndexing.nodeName p = { keys := [], err := none }) ∧
    (p.Spec.NodeName ≠ "" →
      MultiIndexing.nodeName p = { keys := [p.Spec.NodeName], err := none }) := by
  constructor
  · intro h
    simp [MultiIndexing.nodeName, h]
  · intro h
    simp [MultiIndexing.nodeName, h]

theorem multiIndexing_nodeName_spec_witness :
    MultiIndexing.nodeName (podOnNode "") = { keys := [], err := none } ∧
    MultiIndexing.nodeName (podOnNode "n1") = { keys := ["n1"], err := none } :=
  ⟨(multiIndexing_nodeName_spec (podOnNode "")).1 rfl,
   (multiIndexing_nodeName_spec (podOnNode "n1")).2 (by decide)⟩

/-- C2 (evaluation at the failing input): for a pod with no node assigned, the `nodeName`
index functions of simple-indexing-examples and of multi-ns-indexing return the one-element
key list `[""]`, so the pod is indexed under the key `""`. -/
theorem unguarded_nodeName_indexes_empty_key :
    SimpleIndexingExamples.nodeName (podOnNode "") = { keys := [""], err := none } ∧
    MultiNsIndexing.nodeName (podOnNode "") = { keys := [""], err := none } ∧
    (podOnNode "").Spec.NodeName = "" := by
  decide

/-- C3: the `appLabel` index function of multi-indexing returns the empty key list when the
pod has no label `msn_key` (in particular when `Labels` is nil) and exactly `[v]` when the
label `msn_key` has value `v`; hence `msn_value` is among the keys exactly for the pods whose
`msn_key` label equals `msn_value`. -/
theorem multiIndexing_appLabel_spec (p : Pod) :
    (p.Labels = none → MultiIndexing.appLabel p = { keys := [], err := none }) ∧
    (p.Labels.entry "msn_key" = none → MultiIndexing.appLabel p = { keys := [], err := none }) ∧
    (∀ v, p.Labels.entry "msn_key" = some v →
      MultiIndexing.appLabel p = { keys := [v], err := none }) ∧
    ("msn_value" ∈ (MultiIndexing.appLabel p).keys ↔
      p.Labels.entry "msn_key" = some "msn_value") := by
  refine ⟨?_, ?_, ?_, ?_⟩
  · intro h
    simp [MultiIndexing.appLabel, GoMap.index, h]
  · intro h
    simp [MultiIndexing.appLabel, GoMap.index_of_entry_none h]
  · intro v h
    simp [MultiIndexing.appLabel, GoMap.index_of_entry_some h]
  · rw [MultiIndexing.appLabel_keys]
    cases p.Labels.entry "msn_key" with
    | none => simp
    | some v => simp [eq_comm]

theorem multiIndexing_appLabel_spec_witness :
    MultiIndexing.appLabel (podOnNode "n1") = { keys := [], err := none } ∧
    MultiIndexing.appLabel (podWithLabel "app" "web") = { keys := [], err := none } ∧
    MultiIndexing.appLabel (podWithLabel "msn_key" "msn_value") =
      { keys := ["msn_value"], err := none } :=
  ⟨(multiIndexing_appLabel_spec (podOnNode "n1")).1 rfl,
   (multiIndexing_appLabel_spec (podWithLabel "app" "web")).2.1 (by decide),
   (multiIndexing_appLabel_spec (podWithLabel "msn_key" "msn_value")).2.2.1 "msn_value"
     (by decide)⟩

/-- C4 (evaluation at the failing input): a pod whose only label is `app = web` gets no key
from the `appLabel` index function of multi-indexing, although its `app` label exists. -/
theorem appLabel_ignores_app_label :
    (podWithLabel "app" "web").Labels.entry "app" = some "web" ∧
    MultiIndexing.appLabel (podWithLabel "app" "web") = { keys := [], err := none } := by
  decide

/-- C5: the `ownerAnnotation` index function of multi-indexing returns the empty key list when
the pod has no annotation `owner` (in particular when `Annotations` is nil) and exactly `[v]`
when the annotation `owner` has value `v`. -/
theorem multiIndexing_ownerAnnotation_spec (p : Pod) :
    (p.Annotations = none → MultiIndexing.ownerAnnotation p = { keys := [], err := none }) ∧
    (p.Annotations.entry "owner" = none →
      MultiIndexing.ownerAnnotation p = { keys := [], err := none }) ∧
    (∀ v, p.Annotations.entry "owner" = some v →
      MultiIndexing.ownerAnnotation p = { keys := [v], err := none }) := by
  refine ⟨?_, ?_, ?_⟩
  · intro h
    simp [MultiIndexing.ownerAnnotation, GoMap.index, h]
  · intro h
    simp [MultiIndexing.ownerAnnotation, GoMap.index_of_entry_none h]
  · intro v h
    simp [MultiIndexing.ownerAnnotation, GoMap.index_of_entry_some h]

theorem multiIndexing_ownerAnnotation_spec_witness :
    MultiIndexing.ownerAnnotation (podOnNode "n1") = { keys := [], err := none } ∧
    MultiIndexing.ownerAnnotation (podAnnotated "team" "msn") =
      { keys := [], err := none } ∧
    MultiIndexing.ownerAnnotation (podAnnotated "owner" "msn") =
      { keys := ["msn"], err := none } :=
  ⟨(multiIndexing_ownerAnnotation_spec (podOnNode "n1")).1 rfl,
   (multiIndexing_ownerAnnotation_spec (podAnnotated "team" "msn")).2.1 (by decide),
   (multiIndexing_ownerAnnotation_spec (podAnnotated "owner" "msn")).2.2 "msn"
     (by decide)⟩

/-- C6: every index function registered by one of the three programs returns, for every pod,
a key list together with a nil error. -/
theorem registered_indexFuncs_total (e : String × IndexFunc)
    (he : e ∈ MultiIndexing.indexers ++ SimpleIndexingExamples.indexers ++
      MultiNsIndexing.indexers) (p : Pod) :
    ∃ keys, e.2 p = { keys := keys, err := none } := by
  simp only [MultiIndexing.indexers, SimpleIndexingExamples.indexers, MultiNsIndexing.indexers,
    List.cons_append, List.nil_append, List.mem_cons, List.mem_singleton] at he
  rcases he with h | h | h | h | h | h
  · subst h
    by_cases hn : p.Spec.NodeName = "" <;> simp [MultiIndexing.nodeName, hn]
  · subst h
    cases hl : p.Labels.entry "msn_key" with
    | none => simp [MultiIndexing.appLabel, GoMap.index_of_entry_none hl]
    | some v => simp [MultiIndexing.appLabel, GoMap.index_of_entry_some hl]
  · subst h
    cases hl : p.Annotations.entry "owner" with
    | none => simp [MultiIndexing.ownerAnnotation, GoMap.index_of_entry_none hl]
    | some v => simp [MultiIndexing.ownerAnnotation, GoMap.index_of_entry_some hl]
  · subst h
    simp [SimpleIndexingExamples.nodeName]
  · subst h
    simp [MultiNsIndexing.nodeName]
  · simp at h

theorem registered_indexFuncs_total_witness :
    ∃ keys, MultiIndexing.ownerAnnotation (podOnNode "") = { keys := keys, err := none } :=
  registered_indexFuncs_total ("ownerAnnotation", MultiIndexing.ownerAnnotation)
    (by simp [MultiIndexing.indexers]) (podOnNode "")

/-- C7 (counterexample): it is not the case that no index function of multi-indexing ever
returns the key `""`: a pod whose label `msn_key` has the empty value gets the key `""` from
`appLabel`. -/
theorem multiIndexing_empty_key_possible :
    ¬ ∀ p : Pod, "" ∉ (MultiIndexing.nodeName p).keys ∧ "" ∉ (MultiIndexing.appLabel p).keys ∧
      "" ∉ (MultiIndexing.ownerAnnotation p).keys := by
  intro h
  exact (h (podWithLabel "msn_key" "")).2.1 (by decide)

/-- C7 (amended): `nodeName` of multi-indexing never returns the key `""`; `appLabel` and
`ownerAnnotation` return it exactly when the label `msn_key`, respectively the annotation
`owner`, is present with the empty string as its value, so never for a pod lacking it. -/
theorem multiIndexing_empty_key_only_from_empty_value (p : Pod) :
    "" ∉ (MultiIndexing.nodeName p).keys ∧
    ("" ∈ (MultiIndexing.appLabel p).keys ↔ p.Labels.entry "msn_key" = some "") ∧
    ("" ∈ (MultiIndexing.ownerAnnotation p).keys ↔ p.Annotations.entry "owner" = some "") := by
  refine ⟨?_, ?_, ?_⟩
  · by_cases hn : p.Spec.NodeName = ""
    · simp [MultiIndexing.nodeName, hn]
    · simpa [MultiIndexing.nodeName, hn] using fun h => hn h.symm
  · rw [MultiIndexing.appLabel_keys]
    cases p.Labels.entry "msn_key" with
    | none => simp
    | some v => simp [eq_comm]
  · rw [MultiIndexing.ownerAnnotation_keys]
    cases p.Annotations.entry "owner" with
    | none => simp
    | some v => simp [eq_comm]

/-- C10: the `nodeName` index functions of simple-indexing-examples and multi-ns-indexing are
the same function; the one of multi-indexing agrees with them on every pod with a non-empty
`Spec.NodeName` and differs from them exactly on the pods with an empty one; each returns at
most one key and gives equal results on pods with equal `Spec.NodeName`. -/
theorem nodeName_indexFuncs_compared (p q : Pod) :
    SimpleIndexingExamples.nodeName = MultiNsIndexing.nodeName ∧
    (p.Spec.NodeName ≠ "" →
      MultiIndexing.nodeName p = SimpleIndexingExamples.nodeName p ∧
      MultiIndexing.nodeName p = MultiNsIndexing.nodeName p) ∧
    (MultiIndexing.nodeName p ≠ SimpleIndexingExamples.nodeName p ↔ p.Spec.NodeName = "") ∧
    ((MultiIndexing.nodeName p).keys.length ≤ 1 ∧
      (SimpleIndexingExamples.nodeName p).keys.length ≤ 1 ∧
      (MultiNsIndexing.nodeName p).keys.length ≤ 1) ∧
    (p.Spec.NodeName = q.Spec.NodeName →
      MultiIndexing.nodeName p = MultiIndexing.nodeName q ∧
      SimpleIndexingExamples.nodeName p = SimpleIndexingExamples.nodeName q ∧
      MultiNsIndexing.nodeName p = MultiNsIndexing.nodeName q) := by
  refine ⟨rfl, ?_, ?_, ?_, ?_⟩
  · intro h
    simp [MultiIndexing.nodeName, SimpleIndexingExamples.nodeName, MultiNsIndexing.nodeName, h]
  · by_cases hn : p.Spec.NodeName = "" <;>
      simp [MultiIndexing.nodeName, SimpleIndexingExamples.nodeName, hn]
  · by_cases hn : p.Spec.NodeName = "" <;>
      simp [MultiIndexing.nodeName, SimpleIndexingExamples.nodeName, MultiNsIndexing.nodeName, hn]
  · intro h
    simp [MultiIndexing.nodeName, SimpleIndexingExamples.nodeName, MultiNsIndexing.nodeName, h]

theorem nodeName_indexFuncs_compared_witness :
    (MultiIndexing.nodeName (podOnNode "n1") = SimpleIndexingExamples.nodeName (podOnNode "n1") ∧
      MultiIndexing.nodeName (podOnNode "n1") = MultiNsIndexing.nodeName (podOnNode "n1")) ∧
    (MultiIndexing.nodeName (podOnNode "n1") =
        MultiIndexing.nodeName { podWithLabel "app" "web" with Spec := { NodeName := "n1" } } ∧
      SimpleIndexingExamples.nodeName (podOnNode "n1") =
        SimpleIndexingExamples.nodeName
          { podWithLabel "app" "web" with Spec := { NodeName := "n1" } } ∧
      MultiNsIndexing.nodeName (podOnNode "n1") =
        MultiNsIndexing.nodeName
          { podWithLabel "app" "web" with Spec := { NodeName := "n1" } }) :=
  ⟨(nodeName_indexFuncs_compared (podOnNode "n1")
      { podWithLabel "app" "web" with Spec := { NodeName := "n1" } }).2.1 (by decide),
   (nodeName_indexFuncs_compared (podOnNode "n1")
      { podWithLabel "app" "web" with Spec := { NodeName := "n1" } }).2.2.2.2 rfl⟩

/-! ## The Index Table -/

theorem KeyTable.mem_members_addIdentity (kt : KeyTable) (k key : String) (id i : Identity) :
    i ∈ (kt.addIdentity k id).members key ↔ (key = k ∧ i = id) ∨ i ∈ kt.members key := by
  by_cases h : key = k
  · subst h
    simp [KeyTable.addIdentity, KeyTable.members, AList.lookup_insert]
  · simp [KeyTable.addIdentity, KeyTable.members, AList.lookup_insert_ne h, h]

theorem KeyTable.mem_members_removeIdentity (kt : KeyTable) (k key : String) (id i : Identity) :
    i ∈ (kt.removeIdentity k id).members key ↔ i ∈ kt.members key ∧ ¬ (key = k ∧ i = id) := by
  by_cases h : key = k
  · subst h
    simp [KeyTable.removeIdentity, KeyTable.members, AList.lookup_insert]
  · simp [KeyTable.removeIdentity, KeyTable.members, AList.lookup_insert_ne h, h]

theorem KeyTable.mem_members_foldl_add (ks : List String) (kt : KeyTable) (key : String)
    (id i : Identity) :
    i ∈ (ks.foldl (fun t k => t.addIdentity k id) kt).members key ↔
      (key ∈ ks ∧ i = id) ∨ i ∈ kt.members key := by
  induction ks generalizing kt with
  | nil => simp
  | cons k ks ih =>
    rw [List.foldl_cons, ih, KeyTable.mem_members_addIdentity]
    simp only [List.mem_cons]
    tauto

theorem KeyTable.mem_members_foldl_remove (ks : List String) (kt : KeyTable) (key : String)
    (id i : Identity) :
    i ∈ (ks.foldl (fun t k => t.removeIdentity k id) kt).members key ↔
      i ∈ kt.members key ∧ ¬ (key ∈ ks ∧ i = id) := by
  induction ks generalizing kt with
  | nil => simp
  | cons k ks ih =>
    rw [List.foldl_cons, ih, KeyTable.mem_members_removeIdentity]
    simp only [List.mem_cons]
    tauto

/-- Membership after the per-definition reindex step, in terms of membership before it. -/
theorem KeyTable.mem_members_reindex (kt : KeyTable) (d : IndexDefinition) (id i : Identity)
    (oldObject newObject : Option Pod) (key : String) :
    i ∈ (kt.reindex d id oldObject newObject).members key ↔
      ((key ∈ d.keysOf newObject ∧ key ∉ d.keysOf oldObject) ∧ i = id) ∨
      (i ∈ kt.members key ∧
        ¬ ((key ∈ d.keysOf oldObject ∧ key ∉ d.keysOf newObject) ∧ i = id)) := by
  simp only [KeyTable.reindex, KeyTable.mem_members_foldl_add, KeyTable.mem_members_foldl_remove,
    List.mem_filter, decide_eq_true_eq]

theorem Lookup_eq_members (t : IndexTable) (n key : String) :
    Lookup t n key = ((t.lookup n).getD ∅).members key := by
  unfold Lookup
  cases t.lookup n with
  | none => rfl
  | some kt => rfl

theorem Reindex_lookup_of_not_mem (defs : List IndexDefinition) (t : IndexTable) (id : Identity)
    (o n : Option Pod) (name : String) (h : name ∉ defs.map (fun d => d.name)) :
    (Reindex defs t id o n).lookup name = t.lookup name := by
  induction defs generalizing t with
  | nil => rfl
  | cons d ds ih =>
    simp only [List.map_cons, List.mem_cons, not_or] at h
    have step : Reindex (d :: ds) t id o n =
        Reindex ds (t.insert d.name (((t.lookup d.name).getD ∅).reindex d id o n)) id o n := rfl
    rw [step, ih _ h.2, AList.lookup_insert_ne h.1]

/-- With pairwise distinct index names, `Reindex` applies to the table entry of every registered
definition exactly that definition's reindex step. -/
theorem Reindex_lookup_of_mem (defs : List IndexDefinition) (t : IndexTable) (id : Identity)
    (o n : Option Pod) (hnd : (defs.map (fun d => d.name)).Nodup)
    (d : IndexDefinition) (hd : d ∈ defs) :
    (Reindex defs t id o n).lookup d.name =
      some (((t.lookup d.name).getD ∅).reindex d id o n) := by
  induction defs generalizing t with
  | nil => simp at hd
  | cons d0 ds ih =>
    simp only [List.map_cons, List.nodup_cons] at hnd
    have step : Reindex (d0 :: ds) t id o n =
        Reindex ds (t.insert d0.name (((t.lookup d0.name).getD ∅).reindex d0 id o n)) id o n := rfl
    rw [step]
    rcases List.mem_cons.1 hd with h | h
    · subst h
      rw [Reindex_lookup_of_not_mem _ _ _ _ _ _ hnd.1, AList.lookup_insert]
    · have hne : d.name ≠ d0.name := by
        intro heq
        exact hnd.1 (heq ▸ List.mem_map_of_mem (fun d => d.name) h)
      rw [ih _ hnd.2 h, AList.lookup_insert_ne hne]

theorem Cache.new_table_lookup (defs : List IndexDefinition) (name key : String) :
    Lookup (Cache.new defs).table name key = [] := by
  have gen : ∀ (ds : List IndexDefinition) (t : IndexTable),
      (∀ n k, Lookup t n k = []) →
      ∀ n k, Lookup (ds.foldl (fun t d => t.insert d.name ∅) t) n k = [] := by
    intro ds
    induction ds with
    | nil => intro t ht; simpa using ht
    | cons d ds ih =>
      intro t ht
      rw [List.foldl_cons]
      apply ih
      intro n k
      by_cases h : n = d.name
      · subst h
        simp [Lookup, AList.lookup_insert, KeyTable.members]
      · have := ht n k
        simpa [Lookup, AList.lookup_insert_ne h] using this
  exact gen defs ∅ (fun n k => rfl) name key

theorem Cache.new_consistent (defs : List IndexDefinition) : (Cache.new defs).Consistent := by
  intro d _ key i
  rw [Cache.new_table_lookup]
  simp [Cache.new, ObjectStore.Get]

/-- Replacing the object of one identity (by a new object or by none) and reindexing with the
object the store held before keeps the cache consistent. -/
theorem Cache.consistent_reindex (c : Cache) (hnd : (c.defs.map (fun d => d.name)).Nodup)
    (hc : c.Consistent) (id : Identity) (newObject : Option Pod) (store : ObjectStore)
    (hid : store.Get id = newObject) (hother : ∀ i, i ≠ id → store.Get i = c.store.Get i) :
    Cache.Consistent
      (Cache.mk c.defs store (Reindex c.defs c.table id (c.store.Get id) newObject)) := by
  intro d hd key i
  have hd0 : d ∈ c.defs := hd
  show i ∈ Lookup (Reindex c.defs c.table id (c.store.Get id) newObject) d.name key ↔
    ∃ obj, store.Get i = some obj ∧ key ∈ d.f obj
  have hold : ∀ j, j ∈ ((c.table.lookup d.name).getD ∅).members key ↔
      ∃ obj, c.store.Get j = some obj ∧ key ∈ d.f obj := by
    intro j
    rw [← Lookup_eq_members]
    exact hc d hd0 key j
  rw [Lookup_eq_members, Reindex_lookup_of_mem _ _ _ _ _ hnd d hd0, Option.getD_some,
    KeyTable.mem_members_reindex, hold]
  have hkeys : ∀ o : Option Pod, key ∈ d.keysOf o ↔ ∃ obj, o = some obj ∧ key ∈ d.f obj := by
    intro o
    cases o with
    | none => simp [IndexDefinition.keysOf]
    | some v => simp [IndexDefinition.keysOf]
  by_cases h : i = id
  · subst h
    rw [hid, hkeys, hkeys]
    generalize (∃ obj, newObject = some obj ∧ key ∈ d.f obj) = A
    generalize (∃ obj, c.store.Get i = some obj ∧ key ∈ d.f obj) = B
    by_cases hA : A <;> by_cases hB : B <;> simp [hA, hB]
  · rw [hother i h]
    simp [h]

theorem Cache.applyEvent_defs (c : Cache) (e : Event) : (c.applyEvent e).defs = c.defs := by
  cases e <;> rfl

theorem Cache.applyEvent_consistent (c : Cache) (hnd : (c.defs.map (fun d => d.name)).Nodup)
    (hc : c.Consistent) (e : Event) : (c.applyEvent e).Consistent := by
  cases e with
  | add id newObject =>
    show Cache.Consistent (Cache.mk c.defs (c.store.Put id newObject).2
      (Reindex c.defs c.table id (c.store.Get id) (some newObject)))
    exact Cache.consistent_reindex c hnd hc id (some newObject) _
      (AList.lookup_insert _) (fun i h => AList.lookup_insert_ne h)
  | update id oldObject newObject =>
    show Cache.Consistent (Cache.mk c.defs (c.store.Put id newObject).2
      (Reindex c.defs c.table id (c.store.Get id) (some newObject)))
    exact Cache.consistent_reindex c hnd hc id (some newObject) _
      (AList.lookup_insert _) (fun i h => AList.lookup_insert_ne h)
  | delete id oldObject =>
    show Cache.Consistent (Cache.mk c.defs (c.store.Delete id).2
      (Reindex c.defs c.table id (c.store.Get id) none))
    exact Cache.consistent_reindex c hnd hc id none _
      (AList.lookup_erase _ _) (fun i h => AList.lookup_erase_ne h)

theorem Cache.applyEvents_defs (es : List Event) (c : Cache) :
    (c.applyEvents es).defs = c.defs := by
  induction es generalizing c with
  | nil => rfl
  | cons e es ih =>
    show ((c.applyEvent e).applyEvents es).defs = c.defs
    rw [ih, Cache.applyEvent_defs]

theorem Cache.applyEvents_consistent (es : List Event) (c : Cache)
    (hnd : (c.defs.map (fun d => d.name)).Nodup) (hc : c.Consistent) :
    (c.applyEvents es).Consistent := by
  induction es generalizing c with
  | nil => exact hc
  | cons e es ih =>
    show ((c.applyEvent e).applyEvents es).Consistent
    apply ih
    · rw [Cache.applyEvent_defs]
      exact hnd
    · exact Cache.applyEvent_consistent c hnd hc e

theorem MultiIndexing.cache_names_nodup :
    (MultiIndexing.cache.defs.map (fun d => d.name)).Nodup := by
  decide

/-- C8: index consistency.  In the state reached from the cache of multi-indexing by any finite
sequence of add, update and delete events, for every stored identity with current object `obj`,
every registered index `(name, f)` and every key: the identity is in `Lookup name key`, and
`obj` is among the objects `ByIndex name key` returns, if and only if `key` is among the keys
`f` returns for `obj`. -/
theorem multiIndexing_index_consistency (es : List Event) (id : Identity) (obj : Pod)
    (name : String) (f : IndexFunc) (key : String)
    (hreg : (name, f) ∈ MultiIndexing.indexers)
    (hget : (MultiIndexing.cache.applyEvents es).Get id = some obj) :
    (id ∈ Lookup (MultiIndexing.cache.applyEvents es).table name key ↔ key ∈ (f obj).keys) ∧
    ∃ pods, (MultiIndexing.cache.applyEvents es).ByIndex name key = .ok pods ∧
      (obj ∈ pods ↔ key ∈ (f obj).keys) := by
  have hc := Cache.applyEvents_consistent es MultiIndexing.cache
    MultiIndexing.cache_names_nodup (Cache.new_consistent _)
  have hmem : (IndexDefinition.mk name (fun pod => (f pod).keys)) ∈
      indexDefinitions MultiIndexing.indexers :=
    List.mem_map_of_mem (fun e : String × IndexFunc =>
      IndexDefinition.mk e.1 (fun pod => (e.2 pod).keys)) hreg
  have hdefs : (MultiIndexing.cache.applyEvents es).defs =
      indexDefinitions MultiIndexing.indexers := Cache.applyEvents_defs es _
  have hd : (IndexDefinition.mk name (fun pod => (f pod).keys)) ∈
      (MultiIndexing.cache.applyEvents es).defs := by
    rw [hdefs]
    exact hmem
  have h1 : ∀ i, i ∈ Lookup (MultiIndexing.cache.applyEvents es).table name key ↔
      ∃ o, (MultiIndexing.cache.applyEvents es).store.Get i = some o ∧ key ∈ (f o).keys :=
    fun i => hc _ hd key i
  have hget0 : (MultiIndexing.cache.applyEvents es).store.Get id = some obj := hget
  have hid : id ∈ Lookup (MultiIndexing.cache.applyEvents es).table name key ↔
      key ∈ (f obj).keys := by
    rw [h1, hget0]
    simp
  refine ⟨hid, (Lookup (MultiIndexing.cache.applyEvents es).table name key).filterMap
    (MultiIndexing.cache.applyEvents es).store.Get, ?_, ?_⟩
  · have hname : name ∈ (MultiIndexing.cache.applyEvents es).defs.map (fun d => d.name) :=
      List.mem_map_of_mem (fun d : IndexDefinition => d.name) hd
    simp only [Cache.ByIndex, if_pos hname]
  · rw [List.mem_filterMap]
    constructor
    · rintro ⟨i, hi, hio⟩
      obtain ⟨o, ho, hk⟩ := (h1 i).1 hi
      rw [hio] at ho
      cases ho
      exact hk
    · intro hk
      exact ⟨id, hid.2 hk, hget0⟩

theorem multiIndexing_index_consistency_witness :
    (MultiIndexing.cache.applyEvents
        [.add (podOnNode "n1").identity (podOnNode "n1")]).Get (podOnNode "n1").identity =
      some (podOnNode "n1") ∧
    ((podOnNode "n1").identity ∈ Lookup (MultiIndexing.cache.applyEvents
        [.add (podOnNode "n1").identity (podOnNode "n1")]).table "nodeName" "n1" ↔
      "n1" ∈ (MultiIndexing.nodeName (podOnNode "n1")).keys) ∧
    ∃ pods, (MultiIndexing.cache.applyEvents
        [.add (podOnNode "n1").identity (podOnNode "n1")]).ByIndex "nodeName" "n1" = .ok pods ∧
      (podOnNode "n1" ∈ pods ↔ "n1" ∈ (MultiIndexing.nodeName (podOnNode "n1")).keys) :=
  ⟨rfl, multiIndexing_index_consistency [.add (podOnNode "n1").identity (podOnNode "n1")]
    (podOnNode "n1").identity (podOnNode "n1") "nodeName" MultiIndexing.nodeName "n1"
    (by simp [MultiIndexing.indexers]) rfl⟩

/-! ## The `ByIndex` calls of the programs -/

theorem mapM_ok_of_forall_ok {ε α β : Type} (g : α → Except ε β) (l : List α)
    (h : ∀ a ∈ l, ∃ b, g a = .ok b) : ∃ bs, l.mapM g = .ok bs := by
  induction l with
  | nil => exact ⟨[], rfl⟩
  | cons a l ih =>
    obtain ⟨b, hb⟩ := h a (List.mem_cons_self a l)
    obtain ⟨bs, hbs⟩ := ih (fun x hx => h x (List.mem_cons_of_mem a hx))
    refine ⟨b :: bs, ?_⟩
    rw [List.mapM_cons, hb, hbs]
    rfl

theorem query_ok_of_registered {ε : Type} (byIndex : ByIndexFn ε) (names : List String)
    (hbi : ∀ n k e, byIndex n k = .error e → n ∉ names) (c : String × String)
    (hc : c.1 ∈ names) :
    ∃ b, (do let pods ← byIndex c.1 c.2; pure (pods.map fun pod => pod.Name) :
      Except ε (List String)) = .ok b := by
  cases hq : byIndex c.1 c.2 with
  | error e => exact absurd hc (hbi _ _ _ hq)
  | ok pods => exact ⟨_, rfl⟩

theorem Cache.new_byIndex_error (ixs : Indexers) (n k : String) (e : CacheError)
    (h : (Cache.new (indexDefinitions ixs)).ByIndex n k = .error e) :
    n ∉ Indexers.names ixs := by
  intro hn
  have hmem : n ∈ (Cache.new (indexDefinitions ixs)).defs.map (fun d => d.name) := by
    simpa [Cache.new, indexDefinitions, Indexers.names, Function.comp_def] using hn
  unfold Cache.ByIndex at h
  rw [if_pos hmem] at h
  cases h

/-- C9: in each of the three programs every index name passed to `ByIndex` is a name the
program registered through `AddIndexers`; hence with any indexer whose `ByIndex` fails only
for names never registered, every query of the program succeeds and no `panic(err)` is
reached. -/
theorem byIndex_calls_use_registered_names :
    (∀ c ∈ MultiIndexing.byIndexCalls, c.1 ∈ Indexers.names MultiIndexing.indexers) ∧
    (∀ c ∈ SimpleIndexingExamples.byIndexCalls,
      c.1 ∈ Indexers.names SimpleIndexingExamples.indexers) ∧
    (∀ c ∈ MultiNsIndexing.byIndexCalls, c.1 ∈ Indexers.names MultiNsIndexing.indexers) ∧
    (∀ (ε : Type) (byIndex : ByIndexFn ε),
      (∀ n k e, byIndex n k = .error e → n ∉ Indexers.names MultiIndexing.indexers) →
      ∃ out, MultiIndexing.queries byIndex = .ok out) ∧
    (∀ (ε : Type) (byIndex : ByIndexFn ε),
      (∀ n k e, byIndex n k = .error e → n ∉ Indexers.names SimpleIndexingExamples.indexers) →
      ∃ out, SimpleIndexingExamples.queries byIndex = .ok out) ∧
    (∀ (ε : Type) (byIndex : String → ByIndexFn ε),
      (∀ ns n k e, byIndex ns n k = .error e → n ∉ Indexers.names MultiNsIndexing.indexers) →
      ∃ out, MultiNsIndexing.queries byIndex = .ok out) := by
  have h1 : ∀ c ∈ MultiIndexing.byIndexCalls, c.1 ∈ Indexers.names MultiIndexing.indexers := by
    decide
  have h2 : ∀ c ∈ SimpleIndexingExamples.byIndexCalls,
      c.1 ∈ Indexers.names SimpleIndexingExamples.indexers := by
    decide
  have h3 : ∀ c ∈ MultiNsIndexing.byIndexCalls,
      c.1 ∈ Indexers.names MultiNsIndexing.indexers := by
    decide
  refine ⟨h1, h2, h3, ?_, ?_, ?_⟩
  · intro ε byIndex hbi
    exact mapM_ok_of_forall_ok _ _ (fun c hc => query_ok_of_registered byIndex _ hbi c (h1 c hc))
  · intro ε byIndex hbi
    exact mapM_ok_of_forall_ok _ _ (fun c hc => query_ok_of_registered byIndex _ hbi c (h2 c hc))
  · intro ε byIndex hbi
    exact mapM_ok_of_forall_ok _ _ (fun ns _ =>
      mapM_ok_of_forall_ok _ _ (fun c hc =>
        query_ok_of_registered (byIndex ns) _ (hbi ns) c (h3 c hc)))

theorem byIndex_calls_use_registered_names_witness :
    (∃ out, MultiIndexing.queries MultiIndexing.cache.ByIndex = .ok out) ∧
    (∃ out, SimpleIndexingExamples.queries
      (Cache.new (indexDefinitions SimpleIndexingExamples.indexers)).ByIndex = .ok out) ∧
    (∃ out, MultiNsIndexing.queries
      (fun _ => (Cache.new (indexDefinitions MultiNsIndexing.indexers)).ByIndex) = .ok out) :=
  ⟨byIndex_calls_use_registered_names.2.2.2.1 CacheError MultiIndexing.cache.ByIndex
      (Cache.new_byIndex_error MultiIndexing.indexers),
   byIndex_calls_use_registered_names.2.2.2.2.1 CacheError _
      (Cache.new_byIndex_error SimpleIndexingExamples.indexers),
   byIndex_calls_use_registered_names.2.2.2.2.2 CacheError _
      (fun _ => Cache.new_byIndex_error MultiNsIndexing.indexers)⟩


end K8Indexing
